import Mathlib

/-!
# Verification of the radosgw_exporter collection engine

A shallow embedding of the `Collect` method of `RADOSGWCollector` and the
data it consumes.  The Go source aggregates per-category usage counters into
a map keyed by `(bucket, owner, category, store)`, then walks all users,
emitting per-user and per-bucket gauges, and finally emits a health gauge and
a scrape-duration gauge via deferred sends.

Modelling conventions:
* the Go map `map[usageMetricKey]*usageMetricValues` is embedded as an
  association list with insert-or-accumulate update, mirroring the loop body;
* the upstream counters (`uint64` in go-ceph) are embedded as `Nat`, and
  quota fields (`int64` pointers) as `Option Int`; the final `float64`
  conversion performed at emission is modelled as exact integer values;
* a failing admin-API call is a `none` response; the channel of emitted
  prometheus metrics is the returned `List Measurement`, in send order
  (the two deferred sends fire last, in reverse registration order).
-/

set_option autoImplicit false

/-- Per-category usage counters of one usage entry
(`bucket.Categories` element in the Go source). -/
structure CategoryUsage where
  category : String
  ops : Nat
  successfulOps : Nat
  bytesSent : Nat
  bytesReceived : Nat
  deriving DecidableEq, Repr

/-- Per-bucket record inside a usage entry (`entry.Buckets` element). -/
structure BucketUsage where
  bucket : String
  categories : List CategoryUsage
  deriving DecidableEq, Repr

/-- One usage entry of the `GetUsage` response (`usage.Entries` element). -/
structure UsageEntry where
  user : String
  buckets : List BucketUsage
  deriving DecidableEq, Repr

/-- `usageMetricKey` — unique key for usage metric aggregation. -/
structure usageMetricKey where
  bucket : String
  owner : String
  category : String
  store : String
  deriving DecidableEq, Repr

/-- `usageMetricValues` — aggregated metric values. -/
structure usageMetricValues where
  ops : Nat
  successfulOps : Nat
  bytesSent : Nat
  bytesReceived : Nat
  deriving DecidableEq, Repr

/-- The zero accumulator (`&usageMetricValues{}` in Go). -/
def zeroVals : usageMetricValues := ⟨0, 0, 0, 0⟩

/-- One `v.ops += float64(cat.Ops); ...` step of the aggregation loop. -/
def addCat (v : usageMetricValues) (c : CategoryUsage) : usageMetricValues :=
  ⟨v.ops + c.ops, v.successfulOps + c.successfulOps,
   v.bytesSent + c.bytesSent, v.bytesReceived + c.bytesReceived⟩

/-- Componentwise sum of two accumulators. -/
def valAdd (a b : usageMetricValues) : usageMetricValues :=
  ⟨a.ops + b.ops, a.successfulOps + b.successfulOps,
   a.bytesSent + b.bytesSent, a.bytesReceived + b.bytesReceived⟩

/-- The counters of one category record viewed as an accumulator. -/
def catVals (c : CategoryUsage) : usageMetricValues :=
  ⟨c.ops, c.successfulOps, c.bytesSent, c.bytesReceived⟩

/-- The aggregation map `usageAggr`, embedded as an association list. -/
abbrev AggrMap := List (usageMetricKey × usageMetricValues)

/-- One iteration of the inner category loop: create the accumulator on first
encounter of the key, then add the category counters to it. -/
def updateAggr : AggrMap → usageMetricKey → CategoryUsage → AggrMap
  | [], k, c => [(k, addCat zeroVals c)]
  | (k', v) :: rest, k, c =>
      if k' = k then (k', addCat v c) :: rest
      else (k', v) :: updateAggr rest k c

/-- Bucket-name defaulting: `if bucketName == "" { bucketName = "bucket_root" }`. -/
def effBucketName (b : BucketUsage) : String :=
  if b.bucket = "" then "bucket_root" else b.bucket

/-- The key built in the innermost loop body. -/
def catKey (store owner bucketName : String) (c : CategoryUsage) : usageMetricKey :=
  ⟨bucketName, owner, c.category, store⟩

/-- The `for _, cat := range bucket.Categories` loop. -/
def aggrCats (store owner bucketName : String) : AggrMap → List CategoryUsage → AggrMap
  | m, [] => m
  | m, c :: cs =>
      aggrCats store owner bucketName (updateAggr m (catKey store owner bucketName c) c) cs

/-- The `for _, bucket := range entry.Buckets` loop. -/
def aggrBuckets (store owner : String) : AggrMap → List BucketUsage → AggrMap
  | m, [] => m
  | m, b :: bs =>
      aggrBuckets store owner (aggrCats store owner (effBucketName b) m b.categories) bs

/-- The `for _, entry := range usage.Entries` loop. -/
def aggrEntries (store : String) : AggrMap → List UsageEntry → AggrMap
  | m, [] => m
  | m, e :: es => aggrEntries store (aggrBuckets store e.user m e.buckets) es

/-- The whole usage-aggregation phase of `Collect`, starting from the empty map. -/
def usageAggr (store : String) (entries : List UsageEntry) : AggrMap :=
  aggrEntries store [] entries

/-- Accumulator stored under key `k`, zero when the key is absent. -/
def lookupVals : AggrMap → usageMetricKey → usageMetricValues
  | [], _ => zeroVals
  | (k', v) :: rest, k => if k' = k then v else lookupVals rest k

/-- The keys of the aggregation map. -/
def keysOf (m : AggrMap) : List usageMetricKey := m.map Prod.fst

/-- Sum of the counters contributed to key `k` by a category list. -/
def inputSumCats (store owner bucketName : String) (k : usageMetricKey) :
    List CategoryUsage → usageMetricValues
  | [] => zeroVals
  | c :: cs =>
      valAdd (if catKey store owner bucketName c = k then catVals c else zeroVals)
        (inputSumCats store owner bucketName k cs)

/-- Sum of the counters contributed to key `k` by a bucket list. -/
def inputSumBuckets (store owner : String) (k : usageMetricKey) :
    List BucketUsage → usageMetricValues
  | [] => zeroVals
  | b :: bs =>
      valAdd (inputSumCats store owner (effBucketName b) k b.categories)
        (inputSumBuckets store owner k bs)

/-- Sum of the counters contributed to key `k` by the whole input. -/
def inputSumEntries (store : String) (k : usageMetricKey) :
    List UsageEntry → usageMetricValues
  | [] => zeroVals
  | e :: es =>
      valAdd (inputSumBuckets store e.user k e.buckets) (inputSumEntries store k es)

/-- Total of all accumulators of a map. -/
def sumVals : AggrMap → usageMetricValues
  | [] => zeroVals
  | (_, v) :: rest => valAdd v (sumVals rest)

/-- Total counters of a category list. -/
def totalCats : List CategoryUsage → usageMetricValues
  | [] => zeroVals
  | c :: cs => valAdd (catVals c) (totalCats cs)

/-- Total counters of a bucket list. -/
def totalBuckets : List BucketUsage → usageMetricValues
  | [] => zeroVals
  | b :: bs => valAdd (totalCats b.categories) (totalBuckets bs)

/-- Total counters of the whole input. -/
def totalEntries : List UsageEntry → usageMetricValues
  | [] => zeroVals
  | e :: es => valAdd (totalBuckets e.buckets) (totalEntries es)

/-- The metric descriptors of `RADOSGWCollector`, one constructor per
`prometheus.Desc` field. -/
inductive MetricName where
  | ops
  | successfulOps
  | bytesSent
  | bytesReceived
  | bucketUsageBytes
  | bucketUsageObjects
  | userTotalBytes
  | userTotalObjects
  | userQuotaEnabled
  | userQuotaMaxSizeBytes
  | userQuotaMaxObjects
  | userBucketQuotaEnabled
  | userBucketQuotaMaxSizeBytes
  | userBucketQuotaMaxObjects
  | scrapeDurationSeconds
  | up
  deriving DecidableEq, Repr

/-- One metric sent on the collection channel
(`prometheus.MustNewConstMetric(desc, kind, value, labels...)`). -/
structure Measurement where
  name : MetricName
  labels : List String
  value : Int
  deriving DecidableEq, Repr

/-- `user.Stat` of the `GetUser` response (`NumObjects`, `Size` are nullable). -/
structure UserStat where
  numObjects : Option Nat
  size : Option Nat
  deriving DecidableEq, Repr

/-- A quota block (`user.UserQuota` or `user.BucketQuota`); all fields nullable. -/
structure QuotaSpec where
  enabled : Option Bool
  maxSizeKb : Option Int
  maxObjects : Option Int
  deriving DecidableEq, Repr

/-- The parts of the `GetUser` response read by `Collect`. -/
structure UserInfo where
  id : String
  stat : UserStat
  userQuota : QuotaSpec
  bucketQuota : QuotaSpec
  deriving DecidableEq, Repr

/-- The parts of a `ListUsersBucketsWithStat` element read by `Collect`
(`numObjects`/`sizeActual` stand for `b.Usage.RgwMain.NumObjects`/`SizeActual`). -/
structure BucketStat where
  bucket : String
  owner : String
  numObjects : Option Nat
  sizeActual : Option Nat
  deriving DecidableEq, Repr

/-- One pass's view of the admin API: each query's response, `none` on failure.
`userDetail`/`userBuckets` give the per-uid outcomes of `GetUser` and
`ListUsersBucketsWithStat`. -/
structure GatewayView where
  usageResp : Option (List UsageEntry)
  usersResp : Option (List String)
  userDetail : String → Option UserInfo
  userBuckets : String → Option (List BucketStat)

/-- Encoding of a quota-enabled flag (`enabled := 0.0; if *ptr { enabled = 1.0 }`). -/
def boolVal : Bool → Int
  | true => 1
  | false => 0

/-- An `if ptr != nil { ch <- metric }` guard: emit one measurement when the
optional value is present, nothing when it is absent. -/
def optMeasure (n : MetricName) (labels : List String) : Option Int → List Measurement
  | none => []
  | some v => [⟨n, labels, v⟩]

/-- The user-scoped measurements of one successfully fetched user, in the
order `Collect` sends them. -/
def userMeasurements (store : String) (u : UserInfo) : List Measurement :=
  optMeasure .userTotalObjects [u.id, store] (u.stat.numObjects.map fun n => (n : Int)) ++
  optMeasure .userTotalBytes [u.id, store] (u.stat.size.map fun n => (n : Int)) ++
  optMeasure .userQuotaEnabled [u.id, store] (u.userQuota.enabled.map boolVal) ++
  optMeasure .userQuotaMaxSizeBytes [u.id, store] (u.userQuota.maxSizeKb.map fun k => k * 1024) ++
  optMeasure .userQuotaMaxObjects [u.id, store] u.userQuota.maxObjects ++
  optMeasure .userBucketQuotaEnabled [u.id, store] (u.bucketQuota.enabled.map boolVal) ++
  optMeasure .userBucketQuotaMaxSizeBytes [u.id, store] (u.bucketQuota.maxSizeKb.map fun k => k * 1024) ++
  optMeasure .userBucketQuotaMaxObjects [u.id, store] u.bucketQuota.maxObjects

/-- The measurements of one bucket-with-stats record, category `"bucket_total"`. -/
def bucketMeasurements (store : String) (b : BucketStat) : List Measurement :=
  optMeasure .bucketUsageObjects [b.bucket, b.owner, "bucket_total", store]
    (b.numObjects.map fun n => (n : Int)) ++
  optMeasure .bucketUsageBytes [b.bucket, b.owner, "bucket_total", store]
    (b.sizeActual.map fun n => (n : Int))

/-- The `for _, b := range buckets` loop. -/
def bucketsMeasurements (store : String) : List BucketStat → List Measurement
  | [] => []
  | b :: bs => bucketMeasurements store b ++ bucketsMeasurements store bs

/-- One iteration of the user walk: a failed `GetUser` skips the user entirely;
a failed `ListUsersBucketsWithStat` skips only the bucket stats (the
user-scoped measurements were already sent). -/
def collectUser (store : String) (g : GatewayView) (uid : String) : List Measurement :=
  match g.userDetail uid with
  | none => []
  | some u =>
      match g.userBuckets uid with
      | none => userMeasurements store u
      | some bs => userMeasurements store u ++ bucketsMeasurements store bs

/-- The `for _, uid := range *uids` loop. -/
def walkUsers (store : String) (g : GatewayView) : List String → List Measurement
  | [] => []
  | uid :: rest => collectUser store g uid ++ walkUsers store g rest

/-- Label vector of a usage aggregation key. -/
def keyLabels (k : usageMetricKey) : List String :=
  [k.bucket, k.owner, k.category, k.store]

/-- The four counter measurements of one aggregation-map entry. -/
def entryMeasurements (k : usageMetricKey) (v : usageMetricValues) : List Measurement :=
  [⟨.ops, keyLabels k, (v.ops : Int)⟩,
   ⟨.successfulOps, keyLabels k, (v.successfulOps : Int)⟩,
   ⟨.bytesSent, keyLabels k, (v.bytesSent : Int)⟩,
   ⟨.bytesReceived, keyLabels k, (v.bytesReceived : Int)⟩]

/-- The `for key, vals := range usageAggr` emission loop. -/
def emitAggr : AggrMap → List Measurement
  | [] => []
  | (k, v) :: rest => entryMeasurements k v ++ emitAggr rest

/-- The usage measurements of one pass. -/
def usageMeasurements (store : String) (entries : List UsageEntry) : List Measurement :=
  emitAggr (usageAggr store entries)

/-- The two deferred sends: the health gauge (registered second, fires first)
then the scrape-duration gauge. -/
def metaMeasurements (upVal duration : Int) : List Measurement :=
  [⟨.up, [], upVal⟩, ⟨.scrapeDurationSeconds, [], duration⟩]

/-- The `Collect` method: the full measurement stream of one collection pass,
in send order, given the pass's view of the admin API and its wall-clock
duration.  A failed usage query aborts before aggregation; a failed user
listing aborts after the usage measurements were sent; both set health to 0. -/
def Collect (store : String) (g : GatewayView) (duration : Int) : List Measurement :=
  match g.usageResp with
  | none => metaMeasurements 0 duration
  | some entries =>
      match g.usersResp with
      | none => usageMeasurements store entries ++ metaMeasurements 0 duration
      | some uids =>
          usageMeasurements store entries ++ walkUsers store g uids ++
            metaMeasurements 1 duration

/-- A usage entry used in concrete test passes. -/
def entryAlice : UsageEntry :=
  ⟨"alice", [⟨"photos", [⟨"get_obj", 3, 2, 100, 50⟩]⟩]⟩

/-- A pass whose usage query succeeds but whose user listing fails. -/
def gListingFail : GatewayView where
  usageResp := some [entryAlice]
  usersResp := none
  userDetail := fun _ => none
  userBuckets := fun _ => none

/-- A user whose only present optional field is the object-count total. -/
def userBob : UserInfo :=
  { id := "bob", stat := ⟨some 5, none⟩,
    userQuota := ⟨none, none, none⟩, bucketQuota := ⟨none, none, none⟩ }

/-- A pass where `bob`'s detail fetch succeeds but his bucket listing fails. -/
def gBucketListFail : GatewayView where
  usageResp := some []
  usersResp := some ["bob"]
  userDetail := fun _ => some userBob
  userBuckets := fun _ => none

/-- A pass whose usage query fails outright. -/
def gUsageFail : GatewayView where
  usageResp := none
  usersResp := some ["bob"]
  userDetail := fun _ => some userBob
  userBuckets := fun _ => some []

/-- A category record used in concrete test passes. -/
def catGetObj : CategoryUsage := ⟨"get_obj", 3, 2, 100, 50⟩

/-- A per-bucket usage record with an empty bucket name. -/
def bucketRootUsage : BucketUsage := ⟨"", [catGetObj]⟩

/-- A usage entry whose only bucket record has an empty bucket name. -/
def entryRoot : UsageEntry := ⟨"alice", [bucketRootUsage]⟩

/-- A user with every optional field present. -/
def userCarol : UserInfo :=
  { id := "carol", stat := ⟨some 2, some 7⟩,
    userQuota := ⟨some true, some 10, some 100⟩, bucketQuota := ⟨none, none, none⟩ }

/-- A user with both quota max-size fields set to 10 KiB. -/
def userDave : UserInfo :=
  { id := "dave", stat := ⟨none, none⟩,
    userQuota := ⟨some true, some 10, some 100⟩,
    bucketQuota := ⟨some false, some 10, some 7⟩ }

/-- A healthy two-user pass. -/
def gTwoUsers : GatewayView where
  usageResp := some []
  usersResp := some ["bob", "carol"]
  userDetail := fun u => if u = "carol" then some userCarol else some userBob
  userBuckets := fun _ => some []

/-- The same pass as `gTwoUsers` except that `carol`'s detail fetch fails. -/
def gCarolFails : GatewayView where
  usageResp := some []
  usersResp := some ["bob", "carol"]
  userDetail := fun u => if u = "carol" then none else some userBob
  userBuckets := fun _ => some []

theorem valAdd_assoc (a b c : usageMetricValues) :
    valAdd (valAdd a b) c = valAdd a (valAdd b c) := by
  simp [valAdd, Nat.add_assoc]

theorem valAdd_comm (a b : usageMetricValues) : valAdd a b = valAdd b a := by
  simp [valAdd, Nat.add_comm]

theorem valAdd_zero_left (a : usageMetricValues) : valAdd zeroVals a = a := by
  simp [valAdd, zeroVals]

theorem valAdd_zero_right (a : usageMetricValues) : valAdd a zeroVals = a := by
  simp [valAdd, zeroVals]

theorem addCat_eq_valAdd (v : usageMetricValues) (c : CategoryUsage) :
    addCat v c = valAdd v (catVals c) := rfl

theorem lookupVals_updateAggr (m : AggrMap) (k' k : usageMetricKey) (c : CategoryUsage) :
    lookupVals (updateAggr m k' c) k =
      if k' = k then addCat (lookupVals m k) c else lookupVals m k := by
  induction m with
  | nil =>
      by_cases h : k' = k <;> simp [updateAggr, lookupVals, h]
  | cons kv rest ih =>
      obtain ⟨k₀, v₀⟩ := kv
      by_cases h₀ : k₀ = k'
      · subst h₀
        by_cases h : k₀ = k <;> simp [updateAggr, lookupVals, h]
      · by_cases h : k₀ = k
        · subst h
          have hne : ¬ k' = k₀ := fun hh => h₀ hh.symm
          simp [updateAggr, lookupVals, h₀, hne]
        · simp [updateAggr, lookupVals, h₀, h, ih]

theorem lookupVals_aggrCats (store owner bucketName : String) (m : AggrMap)
    (cs : List CategoryUsage) (k : usageMetricKey) :
    lookupVals (aggrCats store owner bucketName m cs) k =
      valAdd (lookupVals m k) (inputSumCats store owner bucketName k cs) := by
  induction cs generalizing m with
  | nil => simp [aggrCats, inputSumCats, valAdd_zero_right]
  | cons c cs ih =>
      simp only [aggrCats, inputSumCats]
      rw [ih, lookupVals_updateAggr]
      by_cases h : catKey store owner bucketName c = k
      · simp [h, addCat_eq_valAdd, valAdd_assoc]
      · simp [h, valAdd_zero_left]

theorem lookupVals_aggrBuckets (store owner : String) (m : AggrMap)
    (bs : List BucketUsage) (k : usageMetricKey) :
    lookupVals (aggrBuckets store owner m bs) k =
      valAdd (lookupVals m k) (inputSumBuckets store owner k bs) := by
  induction bs generalizing m with
  | nil => simp [aggrBuckets, inputSumBuckets, valAdd_zero_right]
  | cons b bs ih =>
      simp only [aggrBuckets, inputSumBuckets]
      rw [ih, lookupVals_aggrCats, valAdd_assoc]

theorem lookupVals_aggrEntries (store : String) (m : AggrMap)
    (es : List UsageEntry) (k : usageMetricKey) :
    lookupVals (aggrEntries store m es) k =
      valAdd (lookupVals m k) (inputSumEntries store k es) := by
  induction es generalizing m with
  | nil => simp [aggrEntries, inputSumEntries, valAdd_zero_right]
  | cons e es ih =>
      simp only [aggrEntries, inputSumEntries]
      rw [ih, lookupVals_aggrBuckets, valAdd_assoc]

theorem lookupVals_usageAggr (store : String) (es : List UsageEntry) (k : usageMetricKey) :
    lookupVals (usageAggr store es) k = inputSumEntries store k es := by
  rw [usageAggr, lookupVals_aggrEntries]
  simp [lookupVals, valAdd_zero_left]

theorem sumVals_updateAggr (m : AggrMap) (k : usageMetricKey) (c : CategoryUsage) :
    sumVals (updateAggr m k c) = valAdd (sumVals m) (catVals c) := by
  induction m with
  | nil =>
      simp [updateAggr, sumVals, addCat_eq_valAdd, valAdd_zero_left, valAdd_zero_right]
  | cons kv rest ih =>
      obtain ⟨k₀, v₀⟩ := kv
      by_cases h : k₀ = k
      · simp [updateAggr, h, sumVals, addCat_eq_valAdd, valAdd_assoc,
          valAdd_comm (catVals c) (sumVals rest)]
      · simp [updateAggr, h, sumVals, ih, valAdd_assoc]

theorem sumVals_aggrCats (store owner bucketName : String) (m : AggrMap)
    (cs : List CategoryUsage) :
    sumVals (aggrCats store owner bucketName m cs) = valAdd (sumVals m) (totalCats cs) := by
  induction cs generalizing m with
  | nil => simp [aggrCats, totalCats, valAdd_zero_right]
  | cons c cs ih =>
      simp only [aggrCats, totalCats]
      rw [ih, sumVals_updateAggr, valAdd_assoc]

theorem sumVals_aggrBuckets (store owner : String) (m : AggrMap) (bs : List BucketUsage) :
    sumVals (aggrBuckets store owner m bs) = valAdd (sumVals m) (totalBuckets bs) := by
  induction bs generalizing m with
  | nil => simp [aggrBuckets, totalBuckets, valAdd_zero_right]
  | cons b bs ih =>
      simp only [aggrBuckets, totalBuckets]
      rw [ih, sumVals_aggrCats, valAdd_assoc]

theorem sumVals_aggrEntries (store : String) (m : AggrMap) (es : List UsageEntry) :
    sumVals (aggrEntries store m es) = valAdd (sumVals m) (totalEntries es) := by
  induction es generalizing m with
  | nil => simp [aggrEntries, totalEntries, valAdd_zero_right]
  | cons e es ih =>
      simp only [aggrEntries, totalEntries]
      rw [ih, sumVals_aggrBuckets, valAdd_assoc]

theorem sumVals_usageAggr (store : String) (es : List UsageEntry) :
    sumVals (usageAggr store es) = totalEntries es := by
  rw [usageAggr, sumVals_aggrEntries]
  simp [sumVals, valAdd_zero_left]

theorem keysOf_nil : keysOf [] = [] := rfl

theorem keysOf_cons (kv : usageMetricKey × usageMetricValues) (l : AggrMap) :
    keysOf (kv :: l) = kv.1 :: keysOf l := rfl

theorem mem_keysOf_updateAggr (m : AggrMap) (k' k : usageMetricKey) (c : CategoryUsage) :
    k ∈ keysOf (updateAggr m k' c) ↔ k = k' ∨ k ∈ keysOf m := by
  induction m with
  | nil => simp [updateAggr, keysOf]
  | cons kv rest ih =>
      obtain ⟨k₀, v₀⟩ := kv
      by_cases h : k₀ = k'
      · subst h
        simp only [updateAggr, eq_self_iff_true, if_true, ite_true, keysOf_cons,
          List.mem_cons]
        itauto
      · simp only [updateAggr, if_neg h, keysOf_cons, List.mem_cons, ih]
        itauto

theorem mem_keysOf_aggrCats (store owner bucketName : String) (m : AggrMap)
    (cs : List CategoryUsage) (k : usageMetricKey) :
    k ∈ keysOf (aggrCats store owner bucketName m cs) ↔
      (∃ c ∈ cs, catKey store owner bucketName c = k) ∨ k ∈ keysOf m := by
  induction cs generalizing m with
  | nil => simp [aggrCats]
  | cons c cs ih =>
      simp only [aggrCats]
      rw [ih, mem_keysOf_updateAggr]
      simp only [List.exists_mem_cons_iff]
      constructor
      · rintro (h | h | h)
        · exact Or.inl (Or.inr h)
        · exact Or.inl (Or.inl h.symm)
        · exact Or.inr h
      · rintro ((h | h) | h)
        · exact Or.inr (Or.inl h.symm)
        · exact Or.inl h
        · exact Or.inr (Or.inr h)

theorem mem_keysOf_aggrBuckets (store owner : String) (m : AggrMap)
    (bs : List BucketUsage) (k : usageMetricKey) :
    k ∈ keysOf (aggrBuckets store owner m bs) ↔
      (∃ b ∈ bs, ∃ c ∈ b.categories, catKey store owner (effBucketName b) c = k) ∨
        k ∈ keysOf m := by
  induction bs generalizing m with
  | nil => simp [aggrBuckets]
  | cons b bs ih =>
      simp only [aggrBuckets]
      rw [ih, mem_keysOf_aggrCats]
      simp only [List.exists_mem_cons_iff]
      itauto

theorem mem_keysOf_aggrEntries (store : String) (m : AggrMap)
    (es : List UsageEntry) (k : usageMetricKey) :
    k ∈ keysOf (aggrEntries store m es) ↔
      (∃ e ∈ es, ∃ b ∈ e.buckets, ∃ c ∈ b.categories,
        catKey store e.user (effBucketName b) c = k) ∨ k ∈ keysOf m := by
  induction es generalizing m with
  | nil => simp [aggrEntries]
  | cons e es ih =>
      simp only [aggrEntries]
      rw [ih, mem_keysOf_aggrBuckets]
      simp only [List.exists_mem_cons_iff]
      itauto

theorem mem_keysOf_usageAggr (store : String) (es : List UsageEntry) (k : usageMetricKey) :
    k ∈ keysOf (usageAggr store es) ↔
      ∃ e ∈ es, ∃ b ∈ e.buckets, ∃ c ∈ b.categories,
        catKey store e.user (effBucketName b) c = k := by
  rw [usageAggr, mem_keysOf_aggrEntries]
  simp [keysOf]

theorem keysOf_updateAggr (m : AggrMap) (k : usageMetricKey) (c : CategoryUsage) :
    keysOf (updateAggr m k c) =
      if k ∈ keysOf m then keysOf m else keysOf m ++ [k] := by
  induction m with
  | nil => simp [updateAggr, keysOf]
  | cons kv rest ih =>
      obtain ⟨k₀, v₀⟩ := kv
      by_cases h : k₀ = k
      · subst h
        simp [updateAggr, keysOf, List.mem_cons]
      · have h' : ¬ k = k₀ := fun hh => h hh.symm
        simp only [updateAggr, if_neg h, keysOf_cons, List.mem_cons, h', false_or, ih]
        by_cases hm : k ∈ keysOf rest <;> simp [hm]

theorem nodup_keysOf_updateAggr (m : AggrMap) (k : usageMetricKey) (c : CategoryUsage)
    (h : (keysOf m).Nodup) : (keysOf (updateAggr m k c)).Nodup := by
  rw [keysOf_updateAggr]
  by_cases hm : k ∈ keysOf m
  · simpa [hm] using h
  · simp [hm, List.nodup_append, h]

theorem nodup_keysOf_aggrCats (store owner bucketName : String) (m : AggrMap)
    (cs : List CategoryUsage) (h : (keysOf m).Nodup) :
    (keysOf (aggrCats store owner bucketName m cs)).Nodup := by
  induction cs generalizing m with
  | nil => simpa [aggrCats] using h
  | cons c cs ih =>
      simp only [aggrCats]
      exact ih _ (nodup_keysOf_updateAggr _ _ _ h)

theorem nodup_keysOf_aggrBuckets (store owner : String) (m : AggrMap)
    (bs : List BucketUsage) (h : (keysOf m).Nodup) :
    (keysOf (aggrBuckets store owner m bs)).Nodup := by
  induction bs generalizing m with
  | nil => simpa [aggrBuckets] using h
  | cons b bs ih =>
      simp only [aggrBuckets]
      exact ih _ (nodup_keysOf_aggrCats _ _ _ _ _ h)

theorem nodup_keysOf_aggrEntries (store : String) (m : AggrMap)
    (es : List UsageEntry) (h : (keysOf m).Nodup) :
    (keysOf (aggrEntries store m es)).Nodup := by
  induction es generalizing m with
  | nil => simpa [aggrEntries] using h
  | cons e es ih =>
      simp only [aggrEntries]
      exact ih _ (nodup_keysOf_aggrBuckets _ _ _ _ h)

theorem nodup_keysOf_usageAggr (store : String) (es : List UsageEntry) :
    (keysOf (usageAggr store es)).Nodup := by
  exact nodup_keysOf_aggrEntries store [] es (by simp [keysOf])

theorem mem_optMeasure_name (n : MetricName) (l : List String) (o : Option Int)
    (m : Measurement) (h : m ∈ optMeasure n l o) : m.name = n := by
  cases o with
  | none => simp [optMeasure] at h
  | some v =>
      simp only [optMeasure, List.mem_singleton] at h
      subst h
      rfl

theorem countP_optMeasure (n n₀ : MetricName) (l : List String) (o : Option Int) :
    (optMeasure n l o).countP (fun m => m.name == n₀) =
      if n = n₀ then (if o.isSome then 1 else 0) else 0 := by
  cases o <;> by_cases h : n = n₀ <;>
    simp [optMeasure, h, List.countP_cons]

theorem filter_optMeasure (n n₀ : MetricName) (l : List String) (o : Option Int) :
    (optMeasure n l o).filter (fun m => m.name == n₀) =
      if n = n₀ then optMeasure n l o else [] := by
  cases o <;> by_cases h : n = n₀ <;> simp [optMeasure, h]

theorem mem_userMeasurements_name (store : String) (u : UserInfo) (m : Measurement)
    (h : m ∈ userMeasurements store u) :
    m.name = MetricName.userTotalObjects ∨ m.name = MetricName.userTotalBytes ∨
    m.name = MetricName.userQuotaEnabled ∨ m.name = MetricName.userQuotaMaxSizeBytes ∨
    m.name = MetricName.userQuotaMaxObjects ∨ m.name = MetricName.userBucketQuotaEnabled ∨
    m.name = MetricName.userBucketQuotaMaxSizeBytes ∨
    m.name = MetricName.userBucketQuotaMaxObjects := by
  simp only [userMeasurements, List.mem_append, or_assoc] at h
  rcases h with h | h | h | h | h | h | h | h <;>
    (have hn := mem_optMeasure_name _ _ _ _ h; tauto)

theorem mem_bucketMeasurements_name (store : String) (b : BucketStat) (m : Measurement)
    (h : m ∈ bucketMeasurements store b) :
    m.name = MetricName.bucketUsageObjects ∨ m.name = MetricName.bucketUsageBytes := by
  simp only [bucketMeasurements, List.mem_append] at h
  rcases h with h | h <;> (have hn := mem_optMeasure_name _ _ _ _ h; tauto)

theorem mem_bucketsMeasurements_name (store : String) (bs : List BucketStat)
    (m : Measurement) (h : m ∈ bucketsMeasurements store bs) :
    m.name = MetricName.bucketUsageObjects ∨ m.name = MetricName.bucketUsageBytes := by
  induction bs with
  | nil => simp [bucketsMeasurements] at h
  | cons b bs ih =>
      simp only [bucketsMeasurements, List.mem_append] at h
      rcases h with h | h
      · exact mem_bucketMeasurements_name store b m h
      · exact ih h

theorem collectUser_detail_fail (store : String) (g : GatewayView) (uid : String)
    (h : g.userDetail uid = none) : collectUser store g uid = [] := by
  simp [collectUser, h]

theorem collectUser_buckets_fail (store : String) (g : GatewayView) (uid : String)
    (u : UserInfo) (hd : g.userDetail uid = some u) (hb : g.userBuckets uid = none) :
    collectUser store g uid = userMeasurements store u := by
  simp [collectUser, hd, hb]

theorem collectUser_success (store : String) (g : GatewayView) (uid : String)
    (u : UserInfo) (bs : List BucketStat) (hd : g.userDetail uid = some u)
    (hb : g.userBuckets uid = some bs) :
    collectUser store g uid = userMeasurements store u ++ bucketsMeasurements store bs := by
  simp [collectUser, hd, hb]

theorem mem_collectUser_name (store : String) (g : GatewayView) (uid : String)
    (m : Measurement) (h : m ∈ collectUser store g uid) :
    m.name ≠ MetricName.ops ∧ m.name ≠ MetricName.successfulOps ∧
    m.name ≠ MetricName.bytesSent ∧ m.name ≠ MetricName.bytesReceived ∧
    m.name ≠ MetricName.up ∧ m.name ≠ MetricName.scrapeDurationSeconds := by
  cases hdet : g.userDetail uid with
  | none =>
      rw [collectUser_detail_fail store g uid hdet] at h
      simp at h
  | some u =>
      cases hbk : g.userBuckets uid with
      | none =>
          rw [collectUser_buckets_fail store g uid u hdet hbk] at h
          have hn := mem_userMeasurements_name store u m h
          rcases hn with h1 | h1 | h1 | h1 | h1 | h1 | h1 | h1 <;> simp [h1]
      | some bs =>
          rw [collectUser_success store g uid u bs hdet hbk] at h
          simp only [List.mem_append] at h
          rcases h with h | h
          · have hn := mem_userMeasurements_name store u m h
            rcases hn with h1 | h1 | h1 | h1 | h1 | h1 | h1 | h1 <;> simp [h1]
          · have hn := mem_bucketsMeasurements_name store bs m h
            rcases hn with h1 | h1 <;> simp [h1]

theorem mem_walkUsers_name (store : String) (g : GatewayView) (uids : List String)
    (m : Measurement) (h : m ∈ walkUsers store g uids) :
    m.name ≠ MetricName.ops ∧ m.name ≠ MetricName.successfulOps ∧
    m.name ≠ MetricName.bytesSent ∧ m.name ≠ MetricName.bytesReceived ∧
    m.name ≠ MetricName.up ∧ m.name ≠ MetricName.scrapeDurationSeconds := by
  induction uids with
  | nil => simp [walkUsers] at h
  | cons uid rest ih =>
      simp only [walkUsers, List.mem_append] at h
      rcases h with h | h
      · exact mem_collectUser_name store g uid m h
      · exact ih h

theorem mem_emitAggr_name (a : AggrMap) (m : Measurement) (h : m ∈ emitAggr a) :
    m.name = MetricName.ops ∨ m.name = MetricName.successfulOps ∨
    m.name = MetricName.bytesSent ∨ m.name = MetricName.bytesReceived := by
  induction a with
  | nil => simp [emitAggr] at h
  | cons kv rest ih =>
      obtain ⟨k, v⟩ := kv
      simp only [emitAggr, entryMeasurements, List.cons_append, List.nil_append,
        List.mem_cons] at h
      rcases h with h | h | h | h | h
      · subst h; tauto
      · subst h; tauto
      · subst h; tauto
      · subst h; tauto
      · exact ih h

theorem keyLabels_inj (a b : usageMetricKey) : keyLabels a = keyLabels b ↔ a = b := by
  cases a
  cases b
  simp [keyLabels, usageMetricKey.mk.injEq, and_assoc]

theorem countP_entryMeasurements (k₀ k : usageMetricKey) (v : usageMetricValues)
    (n : MetricName)
    (hn : n = MetricName.ops ∨ n = MetricName.successfulOps ∨
      n = MetricName.bytesSent ∨ n = MetricName.bytesReceived) :
    (entryMeasurements k₀ v).countP
        (fun m => m.name == n && m.labels == keyLabels k) =
      if k₀ = k then 1 else 0 := by
  rcases hn with h | h | h | h <;> subst h <;> by_cases hk : k₀ = k <;>
    simp [entryMeasurements, List.countP_cons, beq_iff_eq, keyLabels_inj, hk]

theorem countP_emitAggr_notMem (a : AggrMap) (k : usageMetricKey) (n : MetricName)
    (hn : n = MetricName.ops ∨ n = MetricName.successfulOps ∨
      n = MetricName.bytesSent ∨ n = MetricName.bytesReceived)
    (hk : k ∉ keysOf a) :
    (emitAggr a).countP (fun m => m.name == n && m.labels == keyLabels k) = 0 := by
  induction a with
  | nil => simp [emitAggr]
  | cons kv rest ih =>
      obtain ⟨k₀, v⟩ := kv
      simp only [keysOf_cons, List.mem_cons] at hk
      push_neg at hk
      simp only [emitAggr, List.countP_append]
      rw [countP_entryMeasurements k₀ k v n hn]
      have hne : ¬ k₀ = k := fun hh => hk.1 hh.symm
      simp [hne, ih hk.2]

theorem countP_emitAggr_mem (a : AggrMap) (k : usageMetricKey) (n : MetricName)
    (hn : n = MetricName.ops ∨ n = MetricName.successfulOps ∨
      n = MetricName.bytesSent ∨ n = MetricName.bytesReceived)
    (hnd : (keysOf a).Nodup) (hk : k ∈ keysOf a) :
    (emitAggr a).countP (fun m => m.name == n && m.labels == keyLabels k) = 1 := by
  induction a with
  | nil => simp [keysOf] at hk
  | cons kv rest ih =>
      obtain ⟨k₀, v⟩ := kv
      simp only [keysOf_cons, List.mem_cons] at hk
      simp only [keysOf_cons, List.nodup_cons] at hnd
      simp only [emitAggr, List.countP_append]
      rw [countP_entryMeasurements k₀ k v n hn]
      rcases hk with hk | hk
      · subst hk
        simp [countP_emitAggr_notMem rest k n hn hnd.1]
      · have hne : ¬ k₀ = k := fun hh => hnd.1 (by rw [hh]; exact hk)
        simp [hne, ih hnd.2 hk]

theorem countP_walkUsers_usage_pred (store : String) (g : GatewayView)
    (uids : List String) (k : usageMetricKey) (n : MetricName)
    (hn : n = MetricName.ops ∨ n = MetricName.successfulOps ∨
      n = MetricName.bytesSent ∨ n = MetricName.bytesReceived) :
    (walkUsers store g uids).countP
        (fun m => m.name == n && m.labels == keyLabels k) = 0 := by
  rw [List.countP_eq_zero]
  intro m hm
  have h6 := mem_walkUsers_name store g uids m hm
  rcases hn with h | h | h | h <;> subst h <;>
    simp only [Bool.and_eq_true, beq_iff_eq, not_and] <;>
    (intro hname; exact absurd hname (by tauto))

theorem countP_meta_usage_pred (upVal duration : Int) (k : usageMetricKey)
    (n : MetricName)
    (hn : n = MetricName.ops ∨ n = MetricName.successfulOps ∨
      n = MetricName.bytesSent ∨ n = MetricName.bytesReceived) :
    (metaMeasurements upVal duration).countP
        (fun m => m.name == n && m.labels == keyLabels k) = 0 := by
  rcases hn with h | h | h | h <;> subst h <;> simp [metaMeasurements, List.countP_cons]

theorem filter_up_optMeasure (n : MetricName) (l : List String) (o : Option Int)
    (hne : n ≠ MetricName.up) :
    (optMeasure n l o).filter (fun m => m.name == MetricName.up) = [] := by
  rw [filter_optMeasure, if_neg hne]

theorem filter_up_emitAggr (a : AggrMap) :
    (emitAggr a).filter (fun m => m.name == MetricName.up) = [] := by
  rw [List.filter_eq_nil_iff]
  intro m hm
  rcases mem_emitAggr_name a m hm with h | h | h | h <;> simp [h]

theorem filter_up_walkUsers (store : String) (g : GatewayView) (uids : List String) :
    (walkUsers store g uids).filter (fun m => m.name == MetricName.up) = [] := by
  rw [List.filter_eq_nil_iff]
  intro m hm
  simp [(mem_walkUsers_name store g uids m hm).2.2.2.2.1]

theorem filter_up_meta (upVal duration : Int) :
    (metaMeasurements upVal duration).filter (fun m => m.name == MetricName.up) =
      [⟨MetricName.up, [], upVal⟩] := by
  simp [metaMeasurements]

theorem inputSumEntries_append (store : String) (k : usageMetricKey)
    (es es' : List UsageEntry) :
    inputSumEntries store k (es ++ es') =
      valAdd (inputSumEntries store k es) (inputSumEntries store k es') := by
  induction es with
  | nil => simp [inputSumEntries, valAdd_zero_left]
  | cons e es ih => simp [inputSumEntries, ih, valAdd_assoc]

theorem collectUser_congr (store : String) (g g' : GatewayView) (uid : String)
    (hd : g'.userDetail uid = g.userDetail uid)
    (hb : g'.userBuckets uid = g.userBuckets uid) :
    collectUser store g' uid = collectUser store g uid := by
  simp [collectUser, hd, hb]

theorem Collect_up_value (store : String) (g : GatewayView) (d : Int) :
    (Collect store g d).filter (fun m => m.name == MetricName.up) =
      [⟨MetricName.up, [],
        if g.usageResp = none ∨ g.usersResp = none then 0 else 1⟩] := by
  rcases h1 : g.usageResp with _ | entries
  · simp [Collect, h1, filter_up_meta]
  · rcases h2 : g.usersResp with _ | uids
    · simp [Collect, h1, h2, List.filter_append, usageMeasurements,
        filter_up_emitAggr, filter_up_meta]
    · simp [Collect, h1, h2, List.filter_append, usageMeasurements,
        filter_up_emitAggr, filter_up_walkUsers, filter_up_meta]

/-- C1: Conservation law of the Usage Aggregator — for every input sequence of
usage entries, the accumulator stored under each (bucket, owner, category,
store) key equals the componentwise sum of the matching per-category input
records, and the componentwise total over the whole aggregate mapping equals
the total over all per-category records in the input. -/
theorem usage_aggregation_conservation (store : String) (es : List UsageEntry) :
    (∀ k : usageMetricKey,
        lookupVals (usageAggr store es) k = inputSumEntries store k es) ∧
    sumVals (usageAggr store es) = totalEntries es :=
  ⟨fun k => lookupVals_usageAggr store es k, sumVals_usageAggr store es⟩

/-- C3: Health indicator semantics — every collection pass emits exactly one
health measurement, whose value is 0 exactly when the usage query or the
user-listing query failed, and 1 otherwise; the value does not depend on the
per-user fetch outcomes. -/
theorem health_indicator_semantics (store : String) (g : GatewayView) (d : Int) :
    (Collect store g d).filter (fun m => m.name == MetricName.up) =
      [⟨MetricName.up, [],
        if g.usageResp = none ∨ g.usersResp = none then 0 else 1⟩] :=
  Collect_up_value store g d

/-- C2 counterexample: in `gListingFail` the usage query succeeds and the
user-listing query fails — a fatal-pass failure — yet the emitted measurement
set still contains the four usage counter measurements, so it does not consist
of exactly the duration and health measurements. -/
theorem usage_metrics_survive_listing_failure :
    gListingFail.usersResp = none ∧
    (Collect "s" gListingFail 7).map Measurement.name =
      [MetricName.ops, MetricName.successfulOps, MetricName.bytesSent,
       MetricName.bytesReceived, MetricName.up, MetricName.scrapeDurationSeconds] :=
  ⟨rfl, by decide⟩

/-- C2 (amended): when the usage query fails the pass emits exactly the
health(=0) and duration measurements; when the usage query succeeds but the
user listing fails, the pass emits the usage measurements followed by the
health(=0) and duration measurements, and nothing user- or bucket-scoped.
No error value crosses the Collect boundary (`Collect` is a total function
into measurement lists). -/
theorem fatal_failure_measurement_set (store : String) (g : GatewayView) (d : Int) :
    (g.usageResp = none → Collect store g d = metaMeasurements 0 d) ∧
    (∀ entries, g.usageResp = some entries → g.usersResp = none →
      Collect store g d = usageMeasurements store entries ++ metaMeasurements 0 d ∧
      ∀ m ∈ Collect store g d,
        m.name = MetricName.ops ∨ m.name = MetricName.successfulOps ∨
        m.name = MetricName.bytesSent ∨ m.name = MetricName.bytesReceived ∨
        m.name = MetricName.up ∨ m.name = MetricName.scrapeDurationSeconds) := by
  constructor
  · intro h
    simp [Collect, h]
  · intro entries h1 h2
    constructor
    · simp [Collect, h1, h2]
    · intro m hm
      simp only [Collect, h1, h2, List.mem_append] at hm
      rcases hm with hm | hm
      · simp only [usageMeasurements] at hm
        have := mem_emitAggr_name _ m hm
        tauto
      · simp only [metaMeasurements, List.mem_cons, List.not_mem_nil, or_false] at hm
        rcases hm with hm | hm <;> simp [hm]

/-- C2 witness: the amended theorem applied to the two concrete failing passes. -/
theorem fatal_failure_measurement_set_witness :
    Collect "s" gUsageFail 7 = metaMeasurements 0 7 ∧
    Collect "s" gListingFail 7 =
      usageMeasurements "s" [entryAlice] ++ metaMeasurements 0 7 :=
  ⟨(fatal_failure_measurement_set "s" gUsageFail 7).1 rfl,
   ((fatal_failure_measurement_set "s" gListingFail 7).2 [entryAlice] rfl rfl).1⟩

/-- C4 counterexample: in `gBucketListFail` the fetch of `bob`'s bucket list
fails, yet the pass still emits a measurement derived from `bob` (his
user-total-objects gauge) — the claim that all of that user's measurements
are skipped is false. -/
theorem user_metrics_survive_bucket_failure :
    gBucketListFail.userBuckets "bob" = none ∧
    (Collect "s" gBucketListFail 3).map Measurement.name =
      [MetricName.userTotalObjects, MetricName.up, MetricName.scrapeDurationSeconds] :=
  ⟨rfl, by decide⟩

/-- C4 (amended): a failed user-detail fetch skips all of that user's
measurements; a failed bucket-list fetch skips only that user's bucket
measurements while the user-scoped measurements (already sent) remain; in
both cases the walk continues structurally over the remaining identifiers and
the health measurement stays 1 whenever the two fatal-prone queries
succeeded. -/
theorem per_user_failure_skip (store : String) (g : GatewayView) (uid : String) :
    (g.userDetail uid = none → collectUser store g uid = []) ∧
    (∀ u, g.userDetail uid = some u → g.userBuckets uid = none →
        collectUser store g uid = userMeasurements store u) ∧
    (∀ rest, walkUsers store g (uid :: rest) =
        collectUser store g uid ++ walkUsers store g rest) ∧
    (∀ d entries uids, g.usageResp = some entries → g.usersResp = some uids →
        (Collect store g d).filter (fun m => m.name == MetricName.up) =
          [⟨MetricName.up, [], 1⟩]) := by
  refine ⟨collectUser_detail_fail store g uid,
    fun u hd hb => collectUser_buckets_fail store g uid u hd hb,
    fun rest => rfl, ?_⟩
  intro d entries uids h1 h2
  rw [Collect_up_value store g d]
  simp [h1, h2]

/-- C4 witness: the amended theorem applied to the concrete pass
`gBucketListFail`, in which `bob`'s bucket listing fails. -/
theorem per_user_failure_skip_witness :
    collectUser "s" gBucketListFail "bob" = userMeasurements "s" userBob ∧
    (Collect "s" gBucketListFail 3).filter (fun m => m.name == MetricName.up) =
      [⟨MetricName.up, [], 1⟩] :=
  ⟨(per_user_failure_skip "s" gBucketListFail "bob").2.1 userBob rfl rfl,
   (per_user_failure_skip "s" gBucketListFail "bob").2.2.2 3 [] ["bob"] rfl rfl⟩

/-- C5: Partial-failure isolation — if a pass `g'` differs from a healthy pass
`g` only in that user `k`'s detail fetch fails, while the usage and
user-listing queries succeed, then the pass emits the usage measurements,
then exactly the measurements of every user other than `k` as computed in
`g`, and the health measurement remains 1. -/
theorem partial_failure_isolation (store : String) (g g' : GatewayView) (d : Int)
    (entries : List UsageEntry) (uids : List String) (k : String)
    (husage : g'.usageResp = some entries) (hlist : g'.usersResp = some uids)
    (hfail : g'.userDetail k = none)
    (hothers : ∀ u, u ≠ k → g'.userDetail u = g.userDetail u)
    (hbuckets : ∀ u, g'.userBuckets u = g.userBuckets u) :
    Collect store g' d =
      usageMeasurements store entries ++
        (uids.flatMap fun u => if u = k then [] else collectUser store g u) ++
        metaMeasurements 1 d ∧
    (Collect store g' d).filter (fun m => m.name == MetricName.up) =
      [⟨MetricName.up, [], 1⟩] := by
  have hwalk : ∀ us : List String, walkUsers store g' us =
      us.flatMap fun u => if u = k then [] else collectUser store g u := by
    intro us
    induction us with
    | nil => simp [walkUsers]
    | cons uid rest ih =>
        simp only [walkUsers, List.flatMap_cons, ih]
        congr 1
        by_cases hu : uid = k
        · subst hu
          rw [if_pos rfl, collectUser_detail_fail store g' uid hfail]
        · rw [if_neg hu]
          exact collectUser_congr store g g' uid (hothers uid hu) (hbuckets uid)
  constructor
  · simp [Collect, husage, hlist, hwalk]
  · rw [Collect_up_value store g' d]
    simp [husage, hlist]

/-- C5 witness: the isolation theorem applied to the concrete two-user passes
`gTwoUsers` (healthy) and `gCarolFails` (where `carol`'s detail fetch fails). -/
theorem partial_failure_isolation_witness :
    Collect "s" gCarolFails 4 =
      usageMeasurements "s" [] ++
        (["bob", "carol"].flatMap fun u =>
          if u = "carol" then [] else collectUser "s" gTwoUsers u) ++
        metaMeasurements 1 4 ∧
    (Collect "s" gCarolFails 4).filter (fun m => m.name == MetricName.up) =
      [⟨MetricName.up, [], 1⟩] :=
  partial_failure_isolation "s" gTwoUsers gCarolFails 4 [] ["bob", "carol"] "carol"
    rfl rfl rfl (fun u hu => by simp [gCarolFails, gTwoUsers, hu])
    (fun u => rfl)

/-- C6: Bucket-name defaulting — every category record of a bucket record with
an empty bucket name is aggregated under bucket identity `"bucket_root"`
(its key is present in the mapping, never dropped), and a record with a
non-empty bucket name keeps that name in its key. -/
theorem bucket_name_defaulting (store : String) (es : List UsageEntry)
    (e : UsageEntry) (b : BucketUsage) (c : CategoryUsage)
    (he : e ∈ es) (hb : b ∈ e.buckets) (hc : c ∈ b.categories) :
    (b.bucket = "" →
      (⟨"bucket_root", e.user, c.category, store⟩ : usageMetricKey) ∈
        keysOf (usageAggr store es)) ∧
    (b.bucket ≠ "" →
      (⟨b.bucket, e.user, c.category, store⟩ : usageMetricKey) ∈
        keysOf (usageAggr store es)) := by
  constructor
  · intro hempty
    rw [mem_keysOf_usageAggr]
    exact ⟨e, he, b, hb, c, hc, by simp [catKey, effBucketName, hempty]⟩
  · intro hne
    rw [mem_keysOf_usageAggr]
    exact ⟨e, he, b, hb, c, hc, by simp [catKey, effBucketName, hne]⟩

/-- C6 witness: the defaulting theorem applied to the concrete entry
`entryRoot`, whose bucket record has an empty name. -/
theorem bucket_name_defaulting_witness :
    (⟨"bucket_root", "alice", "get_obj", "s"⟩ : usageMetricKey) ∈
      keysOf (usageAggr "s" [entryRoot]) :=
  (bucket_name_defaulting "s" [entryRoot] entryRoot bucketRootUsage catGetObj
    (by decide) (by decide) (by decide)).1 rfl

theorem optMeasure_some (n : MetricName) (l : List String) (v : Int) :
    optMeasure n l (some v) = [⟨n, l, v⟩] := rfl

theorem optMeasure_none (n : MetricName) (l : List String) :
    optMeasure n l none = [] := rfl

theorem isSome_bind_coe (o : Option Nat) :
    (o.bind fun a => some ((a : Int))).isSome = o.isSome := by
  cases o <;> rfl

/-- C7: Absent-field omission — for each optional field of a user record or a
bucket-with-stats record, the per-record projection emits exactly one
measurement of the corresponding metric when the field is present and none
when it is absent, so an absent field is distinguishable from a present zero. -/
theorem absent_field_omission (store : String) (u : UserInfo) (b : BucketStat) :
    ((userMeasurements store u).countP
        (fun m => m.name == MetricName.userTotalObjects) =
      if u.stat.numObjects.isSome then 1 else 0) ∧
    ((userMeasurements store u).countP
        (fun m => m.name == MetricName.userTotalBytes) =
      if u.stat.size.isSome then 1 else 0) ∧
    ((userMeasurements store u).countP
        (fun m => m.name == MetricName.userQuotaEnabled) =
      if u.userQuota.enabled.isSome then 1 else 0) ∧
    ((userMeasurements store u).countP
        (fun m => m.name == MetricName.userQuotaMaxSizeBytes) =
      if u.userQuota.maxSizeKb.isSome then 1 else 0) ∧
    ((userMeasurements store u).countP
        (fun m => m.name == MetricName.userQuotaMaxObjects) =
      if u.userQuota.maxObjects.isSome then 1 else 0) ∧
    ((userMeasurements store u).countP
        (fun m => m.name == MetricName.userBucketQuotaEnabled) =
      if u.bucketQuota.enabled.isSome then 1 else 0) ∧
    ((userMeasurements store u).countP
        (fun m => m.name == MetricName.userBucketQuotaMaxSizeBytes) =
      if u.bucketQuota.maxSizeKb.isSome then 1 else 0) ∧
    ((userMeasurements store u).countP
        (fun m => m.name == MetricName.userBucketQuotaMaxObjects) =
      if u.bucketQuota.maxObjects.isSome then 1 else 0) ∧
    ((bucketMeasurements store b).countP
        (fun m => m.name == MetricName.bucketUsageObjects) =
      if b.numObjects.isSome then 1 else 0) ∧
    ((bucketMeasurements store b).countP
        (fun m => m.name == MetricName.bucketUsageBytes) =
      if b.sizeActual.isSome then 1 else 0) := by
  refine ⟨?_, ?_, ?_, ?_, ?_, ?_, ?_, ?_, ?_, ?_⟩ <;>
    simp [userMeasurements, bucketMeasurements, List.countP_append,
      countP_optMeasure, Option.isSome_map, isSome_bind_coe]

/-- C8: KiB-to-byte conversion — a present quota max-size field with value
`kb` kibibytes yields exactly one max-size-bytes measurement of value
`kb * 1024`, for the user quota and the per-bucket quota alike; every other
optional numeric field is emitted with its value unscaled. -/
theorem kib_to_byte_conversion (store : String) (u : UserInfo) (b : BucketStat) :
    (∀ kb, u.userQuota.maxSizeKb = some kb →
      (userMeasurements store u).filter
          (fun m => m.name == MetricName.userQuotaMaxSizeBytes) =
        [⟨MetricName.userQuotaMaxSizeBytes, [u.id, store], kb * 1024⟩]) ∧
    (∀ kb, u.bucketQuota.maxSizeKb = some kb →
      (userMeasurements store u).filter
          (fun m => m.name == MetricName.userBucketQuotaMaxSizeBytes) =
        [⟨MetricName.userBucketQuotaMaxSizeBytes, [u.id, store], kb * 1024⟩]) ∧
    (∀ j, u.userQuota.maxObjects = some j →
      (userMeasurements store u).filter
          (fun m => m.name == MetricName.userQuotaMaxObjects) =
        [⟨MetricName.userQuotaMaxObjects, [u.id, store], j⟩]) ∧
    (∀ j, u.bucketQuota.maxObjects = some j →
      (userMeasurements store u).filter
          (fun m => m.name == MetricName.userBucketQuotaMaxObjects) =
        [⟨MetricName.userBucketQuotaMaxObjects, [u.id, store], j⟩]) ∧
    (∀ n, u.stat.numObjects = some n →
      (userMeasurements store u).filter
          (fun m => m.name == MetricName.userTotalObjects) =
        [⟨MetricName.userTotalObjects, [u.id, store], (n : Int)⟩]) ∧
    (∀ n, u.stat.size = some n →
      (userMeasurements store u).filter
          (fun m => m.name == MetricName.userTotalBytes) =
        [⟨MetricName.userTotalBytes, [u.id, store], (n : Int)⟩]) ∧
    (∀ n, b.numObjects = some n →
      (bucketMeasurements store b).filter
          (fun m => m.name == MetricName.bucketUsageObjects) =
        [⟨MetricName.bucketUsageObjects,
          [b.bucket, b.owner, "bucket_total", store], (n : Int)⟩]) ∧
    (∀ n, b.sizeActual = some n →
      (bucketMeasurements store b).filter
          (fun m => m.name == MetricName.bucketUsageBytes) =
        [⟨MetricName.bucketUsageBytes,
          [b.bucket, b.owner, "bucket_total", store], (n : Int)⟩]) := by
  refine ⟨?_, ?_, ?_, ?_, ?_, ?_, ?_, ?_⟩ <;> intro x hx <;>
    simp [userMeasurements, bucketMeasurements, List.filter_append,
      filter_optMeasure, hx, optMeasure_some, optMeasure_none]

/-- C8 witness: the conversion theorem applied to `userDave`, whose user and
per-bucket quota sizes are both 10 KiB; the emitted values are 10240 bytes. -/
theorem kib_to_byte_conversion_witness :
    (userMeasurements "s" userDave).filter
        (fun m => m.name == MetricName.userQuotaMaxSizeBytes) =
      [⟨MetricName.userQuotaMaxSizeBytes, ["dave", "s"], 10240⟩] ∧
    (userMeasurements "s" userDave).filter
        (fun m => m.name == MetricName.userBucketQuotaMaxSizeBytes) =
      [⟨MetricName.userBucketQuotaMaxSizeBytes, ["dave", "s"], 10240⟩] :=
  ⟨(kib_to_byte_conversion "s" userDave ⟨"", "", none, none⟩).1 10 rfl,
   (kib_to_byte_conversion "s" userDave ⟨"", "", none, none⟩).2.1 10 rfl⟩

/-- C9: Merge doubling — aggregating the concatenation of a usage-entry
sequence with itself yields the same key set, and under every key an
accumulator whose four counters are exactly twice those produced by
aggregating the sequence once. -/
theorem merge_doubling (store : String) (es : List UsageEntry) (k : usageMetricKey) :
    (k ∈ keysOf (usageAggr store (es ++ es)) ↔ k ∈ keysOf (usageAggr store es)) ∧
    (lookupVals (usageAggr store (es ++ es)) k).ops =
      2 * (lookupVals (usageAggr store es) k).ops ∧
    (lookupVals (usageAggr store (es ++ es)) k).successfulOps =
      2 * (lookupVals (usageAggr store es) k).successfulOps ∧
    (lookupVals (usageAggr store (es ++ es)) k).bytesSent =
      2 * (lookupVals (usageAggr store es) k).bytesSent ∧
    (lookupVals (usageAggr store (es ++ es)) k).bytesReceived =
      2 * (lookupVals (usageAggr store es) k).bytesReceived := by
  have hl : lookupVals (usageAggr store (es ++ es)) k =
      valAdd (lookupVals (usageAggr store es) k)
        (lookupVals (usageAggr store es) k) := by
    rw [lookupVals_usageAggr, lookupVals_usageAggr, inputSumEntries_append]
  refine ⟨?_, ?_, ?_, ?_, ?_⟩
  · rw [mem_keysOf_usageAggr, mem_keysOf_usageAggr]
    simp [List.mem_append]
  · rw [hl]; simp [valAdd, Nat.two_mul]
  · rw [hl]; simp [valAdd, Nat.two_mul]
  · rw [hl]; simp [valAdd, Nat.two_mul]
  · rw [hl]; simp [valAdd, Nat.two_mul]

/-- C10: Four-counter co-emission — for every key present in a pass's
aggregate mapping and each of the four usage counter metrics, the pass emits
exactly one measurement of that metric carrying that key's label vector,
regardless of the counter's value and of the user walk's outcome. -/
theorem four_counter_co_emission (store : String) (g : GatewayView) (d : Int)
    (entries : List UsageEntry) (k : usageMetricKey) (n : MetricName)
    (husage : g.usageResp = some entries)
    (hk : k ∈ keysOf (usageAggr store entries))
    (hn : n = MetricName.ops ∨ n = MetricName.successfulOps ∨
      n = MetricName.bytesSent ∨ n = MetricName.bytesReceived) :
    (Collect store g d).countP
        (fun m => m.name == n && m.labels == keyLabels k) = 1 := by
  have hmem := countP_emitAggr_mem (usageAggr store entries) k n hn
    (nodup_keysOf_usageAggr store entries) hk
  rcases h2 : g.usersResp with _ | uids
  · simp only [Collect, husage, h2, List.countP_append, usageMeasurements]
    rw [hmem, countP_meta_usage_pred 0 d k n hn]
  · simp only [Collect, husage, h2, List.countP_append, usageMeasurements]
    rw [hmem, countP_walkUsers_usage_pred store g uids k n hn,
      countP_meta_usage_pred 1 d k n hn]

/-- C10 witness: the co-emission theorem applied to the concrete pass
`gListingFail` and the key of `entryAlice`'s single category record. -/
theorem four_counter_co_emission_witness :
    (Collect "s" gListingFail 7).countP
        (fun m => m.name == MetricName.ops &&
          m.labels == keyLabels ⟨"photos", "alice", "get_obj", "s"⟩) = 1 :=
  four_counter_co_emission "s" gListingFail 7 [entryAlice]
    ⟨"photos", "alice", "get_obj", "s"⟩ MetricName.ops rfl (by decide) (Or.inl rfl)
